import Mathlib

/-!
Verification development for the sync_rs change-ingestion pipeline.

Shallow embedding of the Rust sources:
  - `src/database.rs`   : the persistent index (folders table, file_index table)
  - `src/event_queue.rs`: the queue events and the single-consumer event loop
  - `src/sync_engine.rs`: the in-memory SyncEngine, FileEntry and calculate_hash
  - `src/file_watcher.rs`: notification normalisation (map_notify_event)

Filesystem paths are modelled as their list of components (absolute paths,
each component a valid UTF-8 string); filesystem behaviour (stat, open,
directory walk) is an explicit oracle passed to the handlers.  Machine
integers that cannot overflow in the modelled ranges (sizes, timestamps,
versions) are Nat.
-/

namespace SyncRs

/-- A filesystem path: the list of its components, root = `[]`. -/
abbrev RPath := List String

/-- Rust Path::parent — drop the final component; the root has no parent. -/
def parentPath : RPath → Option RPath
  | [] => none
  | p :: ps => some ((p :: ps).dropLast)

/-- Rust Path::strip_prefix — the remainder of `p` after the prefix `base`,
when `base` is a prefix of `p`. -/
def stripPrefixPath (p base : RPath) : Option RPath :=
  if base.isPrefixOf p then some (p.drop base.length) else none

/-! ### Persistent index (database.rs) -/

/-- One row of the file_index table, minus its key (folder_id, relative_path). -/
structure FileRecord where
  last_modified_secs : Nat
  size_bytes : Nat
  sha256_hash : Option String
  version : Nat
  last_synced_at : Nat
deriving DecidableEq, Repr

/-- The file_index table: rows keyed by (folder_id, relative_path);
the UNIQUE(folder_id, relative_path) constraint keeps keys distinct, but the
model does not depend on it (lookups return the first matching row). -/
abbrev FileIndex := List ((Int × RPath) × FileRecord)

/-- SELECT of the row with the given (folder_id, relative_path) key. -/
def indexLookup (idx : FileIndex) (k : Int × RPath) : Option FileRecord :=
  (idx.find? (fun e => decide (e.1 = k))).map (fun e => e.2)

/-- Database::upsert_file_record — the SQL INSERT .. ON CONFLICT(folder_id,
relative_path) DO UPDATE: a fresh key is inserted with version 1; an existing
row gets the new last_modified_secs, size_bytes and sha256_hash, version =
version + 1, last_synced_at = CURRENT_TIMESTAMP (the parameter `now`). -/
def upsert_file_record (idx : FileIndex) (now : Nat) (folder_id : Int)
    (relative_path : RPath) (size_bytes : Nat) (sha256_hash : String)
    (modified_secs : Nat) : FileIndex :=
  match indexLookup idx (folder_id, relative_path) with
  | some _ =>
      idx.map (fun e =>
        if e.1 = (folder_id, relative_path) then
          (e.1, { last_modified_secs := modified_secs
                  size_bytes := size_bytes
                  sha256_hash := some sha256_hash
                  version := e.2.version + 1
                  last_synced_at := now })
        else e)
  | none =>
      idx ++ [((folder_id, relative_path),
        { last_modified_secs := modified_secs
          size_bytes := size_bytes
          sha256_hash := some sha256_hash
          version := 1
          last_synced_at := now })]

/-- Database::remove_file_entry — the SQL DELETE of the (folder_id,
relative_path) rows; deleting nothing is still Ok. -/
def remove_file_entry (idx : FileIndex) (folder_id : Int) (relative_path : RPath) :
    Except String FileIndex :=
  .ok (idx.filter (fun e => decide (¬ e.1 = (folder_id, relative_path))))

/-- One row of the synced_folders table. -/
structure Folder where
  id : Int
  name : String
  path : RPath
deriving DecidableEq, Repr

/-- The database state: the synced_folders table, the file_index table, and
the AUTOINCREMENT counter for folder ids. -/
structure DBState where
  folders : List Folder
  fileIndex : FileIndex
  nextId : Int
deriving DecidableEq, Repr

/-- Database::get_folder_by_path — SELECT id, local_path FROM synced_folders
WHERE local_path = ?1 (first row). -/
def get_folder_by_path (st : DBState) (p : RPath) : Option (Int × RPath) :=
  (st.folders.find? (fun f => decide (f.path = p))).map (fun f => (f.id, f.path))

/-- Database::add_folder — INSERT INTO synced_folders; fails when the UNIQUE
constraint on name or local_path is violated, else returns the new row id. -/
def add_folder (st : DBState) (name : String) (p : RPath) :
    Except String (DBState × Int) :=
  if st.folders.any (fun f => decide (f.name = name) || decide (f.path = p)) then
    .error "UNIQUE constraint failed"
  else
    .ok ({ folders := st.folders ++ [{ id := st.nextId, name := name, path := p }]
           fileIndex := st.fileIndex
           nextId := st.nextId + 1 }, st.nextId)

/-! ### SHA-256 and calculate_hash (sync_engine.rs)

The sha2 crate's incremental hasher is modelled by its contract: update
appends bytes to the fed stream, finalize digests the whole fed stream.
The digest function itself (FIPS 180-4 SHA-256) is implemented below on
Nat words reduced mod 2^32. -/

/-- Addition of 32-bit words. -/
def add32 (a b : Nat) : Nat := (a + b) % 4294967296

/-- Right rotation of a 32-bit word by n bits. -/
def rotr32 (x n : Nat) : Nat := ((x >>> n) ||| (x <<< (32 - n))) % 4294967296

/-- Bitwise complement of a 32-bit word. -/
def not32 (x : Nat) : Nat := 4294967295 - x % 4294967296

/-- The 64 SHA-256 round constants. -/
def shaK : List Nat :=
  [1116352408, 1899447441, 3049323471, 3921009573, 961987163,
   1508970993, 2453635748, 2870763221, 3624381080, 310598401,
   607225278, 1426881987, 1925078388, 2162078206, 2614888103,
   3248222580, 3835390401, 4022224774, 264347078, 604807628,
   770255983, 1249150122, 1555081692, 1996064986, 2554220882,
   2821834349, 2952996808, 3210313671, 3336571891, 3584528711,
   113926993, 338241895, 666307205, 773529912, 1294757372,
   1396182291, 1695183700, 1986661051, 2177026350, 2456956037,
   2730485921, 2820302411, 3259730800, 3345764771, 3516065817,
   3600352804, 4094571909, 275423344, 430227734, 506948616,
   659060556, 883997877, 958139571, 1322822218, 1537002063,
   1747873779, 1955562222, 2024104815, 2227730452, 2361852424,
   2428436474, 2756734187, 3204031479, 3329325298]

/-- The SHA-256 initial hash value. -/
def shaH0 : List Nat :=
  [1779033703, 3144134277, 1013904242, 2773480762,
   1359893119, 2600822924, 528734635, 1541459225]

/-- Big-endian byte rendering of `v` on `n` bytes. -/
def beBytes (n : Nat) (v : Nat) : List Nat :=
  (List.range n).map (fun i => (v >>> (8 * (n - 1 - i))) % 256)

/-- Big-endian word value of a byte list. -/
def beToNat (bs : List Nat) : Nat :=
  bs.foldl (fun acc b => acc * 256 + b % 256) 0

/-- Split a list into chunks of n elements (last one possibly shorter). -/
def chunksOf (n : Nat) : List α → List (List α)
  | [] => []
  | a :: l =>
    if n = 0 then []
    else (a :: l).take n :: chunksOf n ((a :: l).drop n)
termination_by l => l.length
decreasing_by
  rename_i hn
  simp only [List.length_drop, List.length_cons]
  omega

/-- SHA-256 padding: 0x80, zeros, then the 64-bit big-endian bit length,
so that the padded message length is a multiple of 64 bytes. -/
def shaPad (msg : List Nat) : List Nat :=
  msg ++ [128] ++ List.replicate ((64 + 55 - msg.length % 64) % 64) 0
      ++ beBytes 8 (msg.length * 8)

/-- Extend the 16 message-schedule words to 64. -/
def shaExtend (w : List Nat) : List Nat :=
  if 64 ≤ w.length then w
  else
    let n := w.length
    let s0 :=
      (rotr32 (w.getD (n - 15) 0) 7) ^^^ (rotr32 (w.getD (n - 15) 0) 18) ^^^
        (w.getD (n - 15) 0 >>> 3)
    let s1 :=
      (rotr32 (w.getD (n - 2) 0) 17) ^^^ (rotr32 (w.getD (n - 2) 0) 19) ^^^
        (w.getD (n - 2) 0 >>> 10)
    shaExtend (w ++ [add32 (add32 (w.getD (n - 16) 0) s0) (add32 (w.getD (n - 7) 0) s1)])
termination_by 64 - w.length
decreasing_by
  simp only [List.length_append, List.length_cons, List.length_nil]
  omega

/-- The eight working variables of the compression function. -/
structure ShaState where
  a : Nat
  b : Nat
  c : Nat
  d : Nat
  e : Nat
  f : Nat
  g : Nat
  h : Nat
deriving DecidableEq, Repr

/-- One round of the SHA-256 compression function. -/
def shaRound (k w : Nat) (s : ShaState) : ShaState :=
  let S1 := (rotr32 s.e 6) ^^^ (rotr32 s.e 11) ^^^ (rotr32 s.e 25)
  let ch := (s.e &&& s.f) ^^^ (not32 s.e &&& s.g)
  let temp1 := add32 (add32 (add32 s.h S1) (add32 ch k)) w
  let S0 := (rotr32 s.a 2) ^^^ (rotr32 s.a 13) ^^^ (rotr32 s.a 22)
  let maj := (s.a &&& s.b) ^^^ (s.a &&& s.c) ^^^ (s.b &&& s.c)
  let temp2 := add32 S0 maj
  { a := add32 temp1 temp2, b := s.a, c := s.b, d := s.c,
    e := add32 s.d temp1, f := s.e, g := s.f, h := s.g }

/-- Compress one 64-byte block into the running hash (eight words). -/
def shaCompress (hs : List Nat) (block : List Nat) : List Nat :=
  let w := shaExtend ((chunksOf 4 block).map beToNat)
  let s0 : ShaState :=
    { a := hs.getD 0 0, b := hs.getD 1 0, c := hs.getD 2 0, d := hs.getD 3 0,
      e := hs.getD 4 0, f := hs.getD 5 0, g := hs.getD 6 0, h := hs.getD 7 0 }
  let s := (List.range 64).foldl (fun s i => shaRound (shaK.getD i 0) (w.getD i 0) s) s0
  [add32 (hs.getD 0 0) s.a, add32 (hs.getD 1 0) s.b, add32 (hs.getD 2 0) s.c,
   add32 (hs.getD 3 0) s.d, add32 (hs.getD 4 0) s.e, add32 (hs.getD 5 0) s.f,
   add32 (hs.getD 6 0) s.g, add32 (hs.getD 7 0) s.h]

/-- SHA-256 digest (32 bytes) of a byte sequence. -/
def sha256Bytes (msg : List Nat) : List Nat :=
  (((chunksOf 64 (shaPad msg)).foldl shaCompress shaH0).map (beBytes 4)).flatten

/-- Hex digit characters, lowercase, as rendered by format "{:x}". -/
def hexDigit (n : Nat) : Char :=
  "0123456789abcdef".toList.getD n (Char.ofNat 120)

/-- Two lowercase hex characters of one byte. -/
def byteToHex (b : Nat) : List Char :=
  [hexDigit (b / 16 % 16), hexDigit (b % 16)]

/-- Lowercase hexadecimal string of a byte sequence. -/
def bytesToHexString (bs : List Nat) : String :=
  String.mk ((bs.map byteToHex).flatten)

/-- The string format "{:x}" of the SHA-256 digest of msg. -/
def sha256Hex (msg : List Nat) : String :=
  bytesToHexString (sha256Bytes msg)

/-- An opened file: the bytes its reads deliver in order, then an optional
I/O error returned by the read after the data is exhausted (none = clean EOF,
read returns Ok(0)). -/
structure OpenedFile where
  data : List Nat
  readError : Option String
deriving DecidableEq, Repr

/-- The fields of fs::Metadata the pipeline reads: len() and the modification
time already reduced to whole seconds since the epoch (the handler's
modified().unwrap_or(now).duration_since(EPOCH).unwrap_or_default().as_secs()
chain is total). -/
structure FileMeta where
  len : Nat
  modified_secs : Nat
deriving DecidableEq, Repr

/-- The filesystem oracle: is_file, fs::metadata, File::open, the WalkDir
enumeration of regular files under a root, and the database clock
CURRENT_TIMESTAMP. -/
structure FileSystem where
  isFile : RPath → Bool
  metadata : RPath → Except String FileMeta
  openFile : RPath → Except String OpenedFile
  filesUnder : RPath → List RPath
  now : Nat

/-- The read loop of calculate_hash: read up to 8192 bytes, stop on a read of
0 bytes, feed each chunk to the hasher (`acc` is the byte stream fed so far);
a read that fails propagates the error. -/
def hashLoopFeed (acc rest : List Nat) (err : Option String) :
    Except String (List Nat) :=
  match rest with
  | [] =>
    match err with
    | some e => .error e
    | none => .ok acc
  | b :: bs =>
    hashLoopFeed (acc ++ (b :: bs).take 8192) ((b :: bs).drop 8192) err
termination_by rest.length
decreasing_by
  simp only [List.length_drop, List.length_cons]
  omega

/-- sync_engine.rs calculate_hash — open the file, stream it through the
hasher in 8 KiB chunks, render the digest with format "{:x}"; open and read
failures surface as the I/O error. -/
def calculate_hash (fs : FileSystem) (file_path : RPath) : Except String String :=
  match fs.openFile file_path with
  | .error e => .error e
  | .ok f =>
    match hashLoopFeed [] f.data f.readError with
    | .error e => .error e
    | .ok fed => .ok (sha256Hex fed)

/-! ### Queue events and the event processor (event_queue.rs) -/

/-- sync_engine.rs FsEventKind. -/
inductive FsEventKind where
  | create
  | modify
  | remove
  | rename (old_path : RPath) (new_path : RPath)
deriving DecidableEq, Repr

/-- event_queue.rs QueueEvent. -/
inductive QueueEvent where
  | fileChanged (path : RPath) (kind : FsEventKind)
  | folderAdded (path : RPath)
  | shutdown
deriving DecidableEq, Repr

/-- A mutation committed to the persistent index; the trace of these is what
the ordering claims are about. -/
inductive IndexOp where
  | upsertOp (folder_id : Int) (relative_path : RPath) (size : Nat)
      (hash : String) (modified : Nat)
  | deleteOp (folder_id : Int) (relative_path : RPath)
  | addFolderOp (name : String) (path : RPath)
deriving DecidableEq, Repr

/-- Commit one index mutation to the database state. -/
def applyOp (now : Nat) (st : DBState) : IndexOp → DBState
  | .upsertOp fid rel size hash modified =>
    { st with fileIndex := upsert_file_record st.fileIndex now fid rel size hash modified }
  | .deleteOp fid rel =>
    match remove_file_entry st.fileIndex fid rel with
    | .ok idx => { st with fileIndex := idx }
    | .error _ => st
  | .addFolderOp name p =>
    match add_folder st name p with
    | .ok (st2, _) => st2
    | .error _ => st

/-- Termination measure for the ancestor walks. -/
def optionPathLen : Option RPath → Nat
  | none => 0
  | some l => l.length + 1

/-- Walking to the parent shrinks the measure. -/
def parentPathMeasureLt (l : RPath) : optionPathLen (parentPath l) < optionPathLen (some l) := by
  cases l with
  | nil => simp [parentPath, optionPathLen]
  | cons a t => simp [parentPath, optionPathLen]

/-- The ancestor walk of handle_file_changed_event: starting from
`path.parent()`, query get_folder_by_path at each ancestor, stop at the first
match, else continue with the next parent. -/
def resolveFrom (st : DBState) : Option RPath → Option (Int × RPath)
  | none => none
  | some current_path =>
    match get_folder_by_path st current_path with
    | some info => some info
    | none => resolveFrom st (parentPath current_path)
termination_by o => optionPathLen o
decreasing_by
  exact parentPathMeasureLt _

/-- Folder resolution for an event path: walk the ancestors of `path` from
its parent upward. -/
def resolve_parent_folder (st : DBState) (path : RPath) : Option (Int × RPath) :=
  resolveFrom st (parentPath path)

/-- The chain of directories the resolution walk visits, nearest first. -/
def ancestorChain : Option RPath → List RPath
  | none => []
  | some p => p :: ancestorChain (parentPath p)
termination_by o => optionPathLen o
decreasing_by
  exact parentPathMeasureLt _

/-- event_queue.rs handle_file_changed_event, as the index mutations it
commits (zero or one): resolve the owning folder (discard when none), take
the relative path, then for Create/Modify of an existing regular file stat
and hash it and upsert (discarding on stat or hash failure), for Remove
delete, and for any other kind log and do nothing. -/
def handle_file_changed_ops (fs : FileSystem) (st : DBState) (path : RPath)
    (kind : FsEventKind) : List IndexOp :=
  match resolve_parent_folder st path with
  | none => []
  | some (folder_id, base_path) =>
    match stripPrefixPath path base_path with
    | none => []
    | some relative_path =>
      match kind with
      | .create | .modify =>
        if fs.isFile path then
          match fs.metadata path with
          | .error _ => []
          | .ok meta =>
            match calculate_hash fs path with
            | .error _ => []
            | .ok hash =>
              [.upsertOp folder_id relative_path meta.len hash meta.modified_secs]
        else []
      | .remove => [.deleteOp folder_id relative_path]
      | .rename _ _ => []

/-- event_queue.rs handle_file_changed_event: the state after committing its
mutations. -/
def handle_file_changed_event (fs : FileSystem) (st : DBState) (path : RPath)
    (kind : FsEventKind) : DBState :=
  (handle_file_changed_ops fs st path kind).foldl (applyOp fs.now) st

/-- event_queue.rs handle_folder_added_event: unwrap the final path component
as the folder name (a panic, modelled as `.error`, when absent), register the
folder (on a UNIQUE violation log and return), then walk the tree and enqueue
one FileChanged{Create} per regular file found. -/
def handle_folder_added_event (fs : FileSystem) (st : DBState) (path : RPath) :
    Except String (DBState × List IndexOp × List QueueEvent) :=
  match path.getLast? with
  | none => .error "called Option unwrap on a None value"
  | some folder_name =>
    match add_folder st folder_name path with
    | .error _ => .ok (st, [], [])
    | .ok (st2, _) =>
      .ok (st2, [.addFolderOp folder_name path],
        (fs.filesUnder path).map (fun q => QueueEvent.fileChanged q FsEventKind.create))

/-- event_queue.rs handle_shutdown_event: it only prints a log line; the
database state is untouched and nothing stops the loop. -/
def handle_shutdown_event (st : DBState) : DBState := st

/-- One dispatch of the consumer loop body: the new state, the index
mutations committed, and the events the handler re-enqueued. -/
def processEvent (fs : FileSystem) (st : DBState) :
    QueueEvent → Except String (DBState × List IndexOp × List QueueEvent)
  | .fileChanged path kind =>
    let ops := handle_file_changed_ops fs st path kind
    .ok (ops.foldl (applyOp fs.now) st, ops, [])
  | .folderAdded path => handle_folder_added_event fs st path
  | .shutdown => .ok (handle_shutdown_event st, [], [])

/-- Termination measure of the loop: a FolderAdded event can spawn one
FileChanged per file below it, and FileChanged spawns nothing. -/
def eventWeight (fs : FileSystem) : QueueEvent → Nat
  | .folderAdded p => 1 + (fs.filesUnder p).length
  | .fileChanged _ _ => 1
  | .shutdown => 1

/-- Total weight of a queue. -/
def queueWeight (fs : FileSystem) (q : List QueueEvent) : Nat :=
  (q.map (eventWeight fs)).sum

/-- event_queue.rs start_event_loop: the single consumer receives events one
at a time in channel order and dispatches each to completion before receiving
the next; re-enqueued events go to the back of the channel.  The result is
the final state and the ordered trace of index mutations (a modelled panic
aborts the run). -/
def start_event_loop (fs : FileSystem) : DBState → List QueueEvent →
    Except String (DBState × List IndexOp)
  | st, [] => .ok (st, [])
  | st, e :: q =>
    match hpe : processEvent fs st e with
    | .error pc => .error pc
    | .ok (st2, ops, new) =>
      match start_event_loop fs st2 (q ++ new) with
      | .error pc => .error pc
      | .ok (stF, trace) => .ok (stF, ops ++ trace)
termination_by st q => queueWeight fs q
decreasing_by
  have hsum : ∀ (l : List RPath),
      (List.map (eventWeight fs)
        (List.map (fun p => QueueEvent.fileChanged p FsEventKind.create) l)).sum
        = l.length := by
    intro l
    induction l with
    | nil => rfl
    | cons a t ih =>
      simp only [List.map_cons, List.sum_cons, ih, eventWeight, List.length_cons]
      omega
  have hlt : queueWeight fs new < eventWeight fs e := by
    cases e with
    | fileChanged path kind =>
      simp only [processEvent, Except.ok.injEq, Prod.mk.injEq] at hpe
      rcases hpe with ⟨-, -, hnew⟩
      subst hnew
      simp [queueWeight, eventWeight]
    | folderAdded path =>
      simp only [processEvent, handle_folder_added_event] at hpe
      cases hlast : path.getLast? with
      | none =>
        simp only [hlast] at hpe
        cases hpe
      | some folder_name =>
        simp only [hlast] at hpe
        cases hadd : add_folder st folder_name path with
        | error err =>
          simp only [hadd, Except.ok.injEq, Prod.mk.injEq] at hpe
          rcases hpe with ⟨-, -, hnew⟩
          subst hnew
          simp [queueWeight, eventWeight]
        | ok pr =>
          simp only [hadd, Except.ok.injEq, Prod.mk.injEq] at hpe
          rcases hpe with ⟨-, -, hnew⟩
          subst hnew
          simp only [queueWeight, hsum, eventWeight]
          omega
    | shutdown =>
      simp only [processEvent, Except.ok.injEq, Prod.mk.injEq] at hpe
      rcases hpe with ⟨-, -, hnew⟩
      subst hnew
      simp [queueWeight, eventWeight]
  simp only [queueWeight, List.map_append, List.sum_append, List.map_cons,
    List.sum_cons] at hlt ⊢
  omega

/-! ### In-memory SyncEngine (sync_engine.rs) -/

/-- sync_engine.rs FileEntry: one tracked file's last-known state. -/
structure FileEntry where
  path : RPath
  last_modified : Nat
  size : Nat
  hash : Option String
  version : Nat
deriving DecidableEq, Repr

/-- The HashMap from absolute path to FileEntry of a SyncFolder, as an
association list with HashMap semantics (insert replaces, keys unique). -/
abbrev FileMap := List (RPath × FileEntry)

/-- HashMap::get. -/
def mapLookup (m : FileMap) (p : RPath) : Option FileEntry :=
  (m.find? (fun e => decide (e.1 = p))).map (fun e => e.2)

/-- HashMap::remove (the mapping removed, the value discarded). -/
def mapErase (m : FileMap) (p : RPath) : FileMap :=
  m.filter (fun e => decide (¬ e.1 = p))

/-- HashMap::insert (replacing any previous mapping of the key). -/
def mapInsert (m : FileMap) (p : RPath) (v : FileEntry) : FileMap :=
  (p, v) :: mapErase m p

/-- sync_engine.rs SyncFolder. -/
structure SyncFolder where
  id : String
  name : String
  path : RPath
  files : FileMap
deriving DecidableEq, Repr

/-- The WalkDir loop body of SyncEngine::scan_folder: stat and hash each
regular file below the root and insert a version-1 FileEntry; metadata and
hash errors propagate with ?. -/
def scanFolderFiles (fs : FileSystem) : List RPath → FileMap → Except String FileMap
  | [], m => .ok m
  | p :: ps, m =>
    match fs.metadata p with
    | .error e => .error e
    | .ok meta =>
      match calculate_hash fs p with
      | .error e => .error e
      | .ok h =>
        scanFolderFiles fs ps
          (mapInsert m p { path := p, last_modified := meta.modified_secs,
                           size := meta.len, hash := some h, version := 1 })

/-- SyncEngine::scan_folder: clear the folder's file map, then walk the tree
inserting a fresh version-1 entry per regular file. -/
def scan_folder (fs : FileSystem) (folder : SyncFolder) : Except String SyncFolder :=
  match scanFolderFiles fs (fs.filesUnder folder.path) [] with
  | .error e => .error e
  | .ok m => .ok { folder with files := m }

/-- SyncEngine::handle_fs_change on one folder: Create/Modify of an existing
regular file stats and hashes it (errors propagate) and inserts a fresh
version-1 entry; Remove drops the entry; Rename moves the old entry (when
present) to the new path, updating only its path field. -/
def handle_fs_change (fs : FileSystem) (folder : SyncFolder) (event_path : RPath) :
    FsEventKind → Except String SyncFolder
  | .create | .modify =>
    if fs.isFile event_path then
      match fs.metadata event_path with
      | .error e => .error e
      | .ok meta =>
        match calculate_hash fs event_path with
        | .error e => .error e
        | .ok h =>
          .ok { folder with
                files := mapInsert folder.files event_path
                  { path := event_path, last_modified := meta.modified_secs,
                    size := meta.len, hash := some h, version := 1 } }
    else .ok folder
  | .remove => .ok { folder with files := mapErase folder.files event_path }
  | .rename old_path new_path =>
    match mapLookup folder.files old_path with
    | some file_entry =>
      .ok { folder with
            files := mapInsert (mapErase folder.files old_path) new_path
              { file_entry with path := new_path } }
    | none => .ok folder

/-! ### Watcher normalisation (file_watcher.rs) -/

/-- The notify crate's EventKind at the granularity the watcher inspects
(the payloads of Access/Create/Modify/Remove are matched with _). -/
inductive NotifyEventKind where
  | any
  | access
  | create
  | modify
  | remove
  | other
deriving DecidableEq, Repr

/-- A raw notify Event: its paths (possibly several) and its kind. -/
structure NotifyEvent where
  paths : List RPath
  kind : NotifyEventKind
deriving DecidableEq, Repr

/-- file_watcher.rs map_notify_event: Modify/Create/Remove become a
FileChanged of the corresponding FsEventKind, everything else is dropped. -/
def map_notify_event (path : RPath) (kind : NotifyEventKind) : Option QueueEvent :=
  match kind with
  | .modify => some (.fileChanged path .modify)
  | .create => some (.fileChanged path .create)
  | .remove => some (.fileChanged path .remove)
  | _ => none

/-- The processor task of start_file_watcher: for each path of the raw event,
forward the mapped event (when any) to the queue. -/
def watcherForward (e : NotifyEvent) : List QueueEvent :=
  e.paths.filterMap (fun p => map_notify_event p e.kind)

/-! ### OS-string model of handle_folder_added_event (for the unwrap panics)

The pipeline model above fixes paths to valid UTF-8 components; to settle the
panic behaviour of handle_folder_added_event, paths are re-modelled with
components that may fail UTF-8 conversion: a component is (valid?, content),
OsStr::to_str returning none when invalid. -/

/-- One OS-string path component: whether it is valid UTF-8, and its
(abstracted) content. -/
abbrev OsComp := Bool × String

/-- An absolute path of OS-string components. -/
abbrev OsPath := List OsComp

/-- OsStr::to_str on one component. -/
def osCompToStr (c : OsComp) : Option String :=
  if c.1 then some c.2 else none

/-- The textual rendering of a fully valid path. -/
def osPathRender (p : OsPath) : String :=
  String.intercalate "/" (p.map (fun c => c.2))

/-- Path::to_str of the whole path: some only when every component is valid
UTF-8. -/
def osPathToStr (p : OsPath) : Option String :=
  if p.all (fun c => c.1) then some (osPathRender p) else none

/-- event_queue.rs handle_folder_added_event over OS-string paths, up to the
registration of the folder (the scan that follows is the re-enqueue already
modelled above): file_name().unwrap() panics on a path with no final
component, .to_str().unwrap() panics when the final component is invalid
UTF-8, path.to_str().unwrap() panics when any component is invalid UTF-8;
panics are modelled as .error, and all happen before the index is touched.
The db is the synced_folders table as (name, local_path) rows. -/
def handle_folder_added_os (db : List (String × String)) (p : OsPath) :
    Except String (List (String × String)) :=
  match p.getLast? with
  | none => .error "called Option unwrap on a None value"
  | some comp =>
    match osCompToStr comp with
    | none => .error "called Option unwrap on a None value"
    | some folder_name =>
      match osPathToStr p with
      | none => .error "called Option unwrap on a None value"
      | some path_str =>
        if db.any (fun f => decide (f.1 = folder_name) || decide (f.2 = path_str)) then
          .ok db
        else .ok (db ++ [(folder_name, path_str)])

/-- Whether a queue event is a FolderAdded (the only event kind whose handler
re-enqueues events or can panic). -/
def isFolderAddedEvent : QueueEvent → Bool
  | .folderAdded _ => true
  | .fileChanged _ _ => false
  | .shutdown => false

/-! ### Concrete fixtures used by witnesses and counterexamples -/

/-- A filesystem with no files at all (events that do not stat the
filesystem, such as Remove and Shutdown, never consult it). -/
def fsNone : FileSystem :=
  { isFile := fun _ => false
    metadata := fun _ => .error "stat failed"
    openFile := fun _ => .error "open failed"
    filesUnder := fun _ => []
    now := 0 }

/-- A database with one tracked folder /a and one indexed file f.txt under
it at version 5. -/
def stA : DBState :=
  { folders := [{ id := 1, name := "a", path := ["a"] }]
    fileIndex := [((1, ["f.txt"]), ⟨3, 2, some "h", 5, 1⟩)]
    nextId := 2 }

/-- A database with the nested tracked folders /a and /a/b of the folder
resolution test. -/
def stAB : DBState :=
  { folders := [{ id := 1, name := "a", path := ["a"] },
                { id := 2, name := "b", path := ["a", "b"] }]
    fileIndex := []
    nextId := 3 }

/-! ## Association-list lemmas shared by the index and file-map proofs -/

theorem assoc_lookup_append_one {α β : Type} [DecidableEq α] (l : List (α × β)) (k : α) (v : β)
    (h : (l.find? (fun e => decide (e.1 = k))).map (fun e => e.2) = none) :
    ((l ++ [(k, v)]).find? (fun e => decide (e.1 = k))).map (fun e => e.2) = some v := by
  rcases hf : l.find? (fun e => decide (e.1 = k)) with _ | e
  · rw [List.find?_append, hf]
    simp
  · rw [hf] at h
    simp at h

theorem assoc_lookup_map_update {α β : Type} [DecidableEq α] (l : List (α × β)) (k : α)
    (f : β → β) (v : β)
    (h : (l.find? (fun e => decide (e.1 = k))).map (fun e => e.2) = some v) :
    (((l.map (fun e => if e.1 = k then (e.1, f e.2) else e)).find?
        (fun e => decide (e.1 = k))).map (fun e => e.2) = some (f v)) := by
  induction l with
  | nil => simp at h
  | cons e es ih =>
    by_cases hk : e.1 = k
    · rw [List.find?_cons_of_pos _ (by simpa using hk)] at h
      simp only [Option.map_some'] at h
      injection h with h
      simp only [List.map_cons, if_pos hk]
      rw [List.find?_cons_of_pos _ (by simpa using hk)]
      simp only [Option.map_some']
      rw [h]
    · rw [List.find?_cons_of_neg _ (by simpa using hk)] at h
      simp only [List.map_cons, if_neg hk]
      rw [List.find?_cons_of_neg _ (by simpa using hk)]
      exact ih h

theorem assoc_lookup_filter_self {α β : Type} [DecidableEq α] (l : List (α × β)) (k : α) :
    (((l.filter (fun e => decide (¬ e.1 = k))).find?
        (fun e => decide (e.1 = k))).map (fun e => e.2) = none) := by
  rw [List.find?_filter]
  have : List.find? (fun a => decide ((decide (¬ a.1 = k)) = true ∧ (decide (a.1 = k)) = true)) l
      = none := by
    rw [List.find?_eq_none]
    intro x _
    simp
  rw [this]
  rfl

theorem assoc_lookup_filter_ne {α β : Type} [DecidableEq α] (l : List (α × β)) (k k2 : α)
    (hne : k2 ≠ k) :
    (((l.filter (fun e => decide (¬ e.1 = k))).find?
        (fun e => decide (e.1 = k2))).map (fun e => e.2)
      = (l.find? (fun e => decide (e.1 = k2))).map (fun e => e.2)) := by
  induction l with
  | nil => rfl
  | cons e es ih =>
    by_cases h2 : e.1 = k2
    · have hk : ¬ e.1 = k := by
        rw [h2]
        exact hne
      rw [List.filter_cons_of_pos (by simpa using hk)]
      rw [List.find?_cons_of_pos _ (by simpa using h2),
        List.find?_cons_of_pos _ (by simpa using h2)]
    · by_cases hk : e.1 = k
      · rw [List.filter_cons_of_neg (by simpa using hk)]
        rw [List.find?_cons_of_neg _ (by simpa using h2)]
        exact ih
      · rw [List.filter_cons_of_pos (by simpa using hk)]
        rw [List.find?_cons_of_neg _ (by simpa using h2),
          List.find?_cons_of_neg _ (by simpa using h2)]
        exact ih

theorem assoc_filter_eq_self_of_none {α β : Type} [DecidableEq α] (l : List (α × β)) (k : α)
    (h : (l.find? (fun e => decide (e.1 = k))).map (fun e => e.2) = none) :
    l.filter (fun e => decide (¬ e.1 = k)) = l := by
  rw [List.filter_eq_self]
  intro a ha
  have hf : l.find? (fun e => decide (e.1 = k)) = none := by
    rcases hf : l.find? (fun e => decide (e.1 = k)) with _ | e
    · exact hf
    · rw [hf] at h
      simp at h
  have := List.find?_eq_none.mp hf a ha
  simpa using this

/-! ## C1 — upsert_file_record: insert-or-update-with-version-bump -/

/-- C1: upsert_file_record on an absent (folder_id, relative_path) inserts a
record with version 1; on a present one it replaces last_modified_secs,
size_bytes and sha256_hash with the new values, bumps version by exactly 1
and refreshes last_synced_at — with no condition on the new hash equalling
the stored one (the hash is universally quantified). -/
theorem upsert_file_record_semantics (idx : FileIndex) (now : Nat) (folder_id : Int)
    (relative_path : RPath) (size_bytes : Nat) (sha256_hash : String) (modified_secs : Nat) :
    (indexLookup idx (folder_id, relative_path) = none →
      indexLookup
          (upsert_file_record idx now folder_id relative_path size_bytes sha256_hash modified_secs)
          (folder_id, relative_path) =
        some { last_modified_secs := modified_secs, size_bytes := size_bytes,
               sha256_hash := some sha256_hash, version := 1, last_synced_at := now }) ∧
    (∀ r, indexLookup idx (folder_id, relative_path) = some r →
      indexLookup
          (upsert_file_record idx now folder_id relative_path size_bytes sha256_hash modified_secs)
          (folder_id, relative_path) =
        some { last_modified_secs := modified_secs, size_bytes := size_bytes,
               sha256_hash := some sha256_hash, version := r.version + 1,
               last_synced_at := now }) := by
  constructor
  · intro h
    unfold upsert_file_record
    rw [h]
    exact assoc_lookup_append_one idx _ _ h
  · intro r h
    unfold upsert_file_record
    rw [h]
    exact assoc_lookup_map_update idx (folder_id, relative_path)
      (fun v => { last_modified_secs := modified_secs, size_bytes := size_bytes,
                  sha256_hash := some sha256_hash, version := v.version + 1,
                  last_synced_at := now }) r h

/-- Witness for C1: a fresh path gets version 1; a stored record at version 5
whose stored hash equals the incoming hash still bumps to 6 and refreshes
last_synced_at. -/
theorem upsert_file_record_semantics_witness :
    (indexLookup ([] : FileIndex) (1, ["a.txt"]) = none ∧
      indexLookup (upsert_file_record [] 7 1 ["a.txt"] 2 "h" 10) (1, ["a.txt"]) =
        some ⟨10, 2, some "h", 1, 7⟩) ∧
    (indexLookup [((1, ["a.txt"]), ⟨3, 2, some "h", 5, 1⟩)] (1, ["a.txt"]) =
        some ⟨3, 2, some "h", 5, 1⟩ ∧
      indexLookup
          (upsert_file_record [((1, ["a.txt"]), ⟨3, 2, some "h", 5, 1⟩)]
            7 1 ["a.txt"] 2 "h" 10) (1, ["a.txt"]) =
        some ⟨10, 2, some "h", 6, 7⟩) :=
  ⟨⟨by decide, (upsert_file_record_semantics [] 7 1 ["a.txt"] 2 "h" 10).1 (by decide)⟩,
   ⟨by decide,
    (upsert_file_record_semantics [((1, ["a.txt"]), ⟨3, 2, some "h", 5, 1⟩)]
        7 1 ["a.txt"] 2 "h" 10).2 ⟨3, 2, some "h", 5, 1⟩ (by decide)⟩⟩

/-! ## C6 — remove_file_entry: delete if present, no-op success on absence -/

/-- C6: remove_file_entry always succeeds; the (folder_id, relative_path)
record is gone afterwards while every other record is untouched, and when no
such record exists the index is returned entirely unchanged. -/
theorem remove_file_entry_semantics (idx : FileIndex) (folder_id : Int)
    (relative_path : RPath) :
    (∃ idx2, remove_file_entry idx folder_id relative_path = .ok idx2 ∧
      indexLookup idx2 (folder_id, relative_path) = none ∧
      ∀ k, k ≠ (folder_id, relative_path) → indexLookup idx2 k = indexLookup idx k) ∧
    (indexLookup idx (folder_id, relative_path) = none →
      remove_file_entry idx folder_id relative_path = .ok idx) := by
  constructor
  · refine ⟨idx.filter (fun e => decide (¬ e.1 = (folder_id, relative_path))), rfl, ?_, ?_⟩
    · exact assoc_lookup_filter_self idx (folder_id, relative_path)
    · intro k hk
      exact assoc_lookup_filter_ne idx (folder_id, relative_path) k hk
  · intro h
    unfold remove_file_entry
    rw [assoc_filter_eq_self_of_none idx (folder_id, relative_path) h]

/-- Witness for C6: removing a never-indexed path from a one-record index
succeeds and returns the index unchanged, and removing the present record
deletes exactly it. -/
theorem remove_file_entry_semantics_witness :
    (∃ idx2,
      remove_file_entry [((1, ["a.txt"]), ⟨3, 2, some "h", 5, 1⟩)] 1 ["b.txt"]
        = .ok idx2 ∧
      indexLookup idx2 (1, ["b.txt"]) = none ∧
      ∀ k, k ≠ ((1 : Int), ["b.txt"]) → indexLookup idx2 k =
        indexLookup [((1, ["a.txt"]), ⟨3, 2, some "h", 5, 1⟩)] k) ∧
    remove_file_entry [((1, ["a.txt"]), ⟨3, 2, some "h", 5, 1⟩)] 1 ["b.txt"]
      = .ok [((1, ["a.txt"]), ⟨3, 2, some "h", 5, 1⟩)] :=
  ⟨(remove_file_entry_semantics [((1, ["a.txt"]), ⟨3, 2, some "h", 5, 1⟩)] 1 ["b.txt"]).1,
   (remove_file_entry_semantics [((1, ["a.txt"]), ⟨3, 2, some "h", 5, 1⟩)] 1 ["b.txt"]).2
     (by decide)⟩

/-! ## C5 — calculate_hash: whole-content SHA-256, lowercase hex, error passthrough -/

theorem hashLoopFeed_eq (acc rest : List Nat) (err : Option String) :
    hashLoopFeed acc rest err =
      match err with
      | none => .ok (acc ++ rest)
      | some e => .error e := by
  induction acc, rest, err using hashLoopFeed.induct with
  | case1 acc e => simp [hashLoopFeed]
  | case2 acc => simp [hashLoopFeed]
  | case3 acc err b bs ih =>
    rw [hashLoopFeed, ih]
    cases err with
    | none => simp [List.take_append_drop]
    | some e => rfl

theorem beBytes_length (n v : Nat) : (beBytes n v).length = n := by
  simp [beBytes]

theorem shaCompress_length (hs block : List Nat) : (shaCompress hs block).length = 8 := rfl

theorem foldl_shaCompress_length (blocks : List (List Nat)) (hs : List Nat)
    (h : hs.length = 8) : (blocks.foldl shaCompress hs).length = 8 := by
  induction blocks generalizing hs with
  | nil => exact h
  | cons b bs ih => exact ih _ (shaCompress_length hs b)

theorem flatten_beBytes_length (hs : List Nat) :
    ((hs.map (beBytes 4)).flatten).length = 4 * hs.length := by
  induction hs with
  | nil => rfl
  | cons a t ih =>
    simp only [List.map_cons, List.flatten_cons, List.length_append, ih,
      beBytes_length, List.length_cons]
    ring

theorem sha256Bytes_length (msg : List Nat) : (sha256Bytes msg).length = 32 := by
  unfold sha256Bytes
  rw [flatten_beBytes_length,
    foldl_shaCompress_length (chunksOf 64 (shaPad msg)) shaH0 rfl]

theorem flatten_byteToHex_length (bs : List Nat) :
    ((bs.map byteToHex).flatten).length = 2 * bs.length := by
  induction bs with
  | nil => rfl
  | cons a t ih =>
    simp only [List.map_cons, List.flatten_cons, List.length_append, ih,
      byteToHex, List.length_cons, List.length_nil]
    omega

theorem bytesToHex_chars (bs : List Nat) :
    ∀ c ∈ (bs.map byteToHex).flatten, c ∈ "0123456789abcdef".toList := by
  intro c hc
  rw [List.mem_flatten] at hc
  obtain ⟨l, hl, hcl⟩ := hc
  rw [List.mem_map] at hl
  obtain ⟨b, -, rfl⟩ := hl
  have hx : ∀ n, n < 16 → hexDigit n ∈ "0123456789abcdef".toList := by decide
  simp only [byteToHex, List.mem_cons, List.mem_singleton] at hcl
  rcases hcl with rfl | rfl | hfalse
  · exact hx _ (Nat.mod_lt _ (by norm_num))
  · exact hx _ (Nat.mod_lt _ (by norm_num))
  · cases hfalse

/-- C5: calculate_hash of a file that opens and reads cleanly is Ok of the
lowercase hexadecimal rendering of the SHA-256 digest of the file's entire
byte content (the 8192-byte chunking of the read loop feeds exactly the
whole content to the digest); an open failure or a read failure returns that
error; and every rendering is 64 lowercase hex characters. -/
theorem calculate_hash_spec (fs : FileSystem) (p : RPath) :
    (∀ data, fs.openFile p = .ok { data := data, readError := none } →
      calculate_hash fs p = .ok (sha256Hex data)) ∧
    (∀ e, fs.openFile p = .error e → calculate_hash fs p = .error e) ∧
    (∀ data e, fs.openFile p = .ok { data := data, readError := some e } →
      calculate_hash fs p = .error e) ∧
    (∀ msg : List Nat, (sha256Hex msg).toList.length = 64 ∧
      ∀ c ∈ (sha256Hex msg).toList, c ∈ "0123456789abcdef".toList) := by
  refine ⟨?_, ?_, ?_, ?_⟩
  · intro data h
    simp only [calculate_hash, h, hashLoopFeed_eq, List.nil_append]
  · intro e h
    simp only [calculate_hash, h]
  · intro data e h
    simp only [calculate_hash, h, hashLoopFeed_eq]
  · intro msg
    constructor
    · show ((sha256Bytes msg).map byteToHex).flatten.length = 64
      rw [flatten_byteToHex_length, sha256Bytes_length]
    · exact bytesToHex_chars (sha256Bytes msg)

/-- Witness for C5 at a two-byte file with content "hi", a failing open, and
a read failure after the data: the hash of the clean file is the digest of
the whole content. -/
theorem calculate_hash_spec_witness :
    (FileSystem.mk (fun _ => true)
        (fun _ => .ok { len := 2, modified_secs := 0 })
        (fun _ => .ok { data := [104, 105], readError := none })
        (fun _ => []) 0).openFile [] = .ok { data := [104, 105], readError := none } ∧
    calculate_hash
        (FileSystem.mk (fun _ => true)
          (fun _ => .ok { len := 2, modified_secs := 0 })
          (fun _ => .ok { data := [104, 105], readError := none })
          (fun _ => []) 0) [] = .ok (sha256Hex [104, 105]) ∧
    calculate_hash
        (FileSystem.mk (fun _ => true)
          (fun _ => .ok { len := 2, modified_secs := 0 })
          (fun _ => .error "open failed")
          (fun _ => []) 0) [] = .error "open failed" ∧
    calculate_hash
        (FileSystem.mk (fun _ => true)
          (fun _ => .ok { len := 2, modified_secs := 0 })
          (fun _ => .ok { data := [104, 105], readError := some "read failed" })
          (fun _ => []) 0) [] = .error "read failed" :=
  ⟨rfl,
   (calculate_hash_spec
      (FileSystem.mk (fun _ => true)
        (fun _ => .ok { len := 2, modified_secs := 0 })
        (fun _ => .ok { data := [104, 105], readError := none })
        (fun _ => []) 0) []).1 [104, 105] rfl,
   (calculate_hash_spec
      (FileSystem.mk (fun _ => true)
        (fun _ => .ok { len := 2, modified_secs := 0 })
        (fun _ => .error "open failed")
        (fun _ => []) 0) []).2.1 "open failed" rfl,
   (calculate_hash_spec
      (FileSystem.mk (fun _ => true)
        (fun _ => .ok { len := 2, modified_secs := 0 })
        (fun _ => .ok { data := [104, 105], readError := some "read failed" })
        (fun _ => []) 0) []).2.2.1 [104, 105] "read failed" rfl⟩

/-! ## C3 — folder resolution: nearest enclosing ancestor, miss discards -/

theorem resolveFrom_eq_findSome (st : DBState) (o : Option RPath) :
    resolveFrom st o = (ancestorChain o).findSome? (get_folder_by_path st) := by
  induction o using ancestorChain.induct with
  | case1 => simp [resolveFrom, ancestorChain]
  | case2 p ih =>
    rw [ancestorChain, resolveFrom, List.findSome?_cons]
    cases get_folder_by_path st p with
    | none => exact ih
    | some info => rfl

/-- C3: the resolution walk visits the ancestors of the event path from its
parent outward (nearest first) and owns the file to the first tracked folder
whose root equals an ancestor; with tracked folders /a and /a/b the path
/a/b/c/file.txt resolves to /a/b and never to /a; and when no ancestor is a
tracked root the FileChanged event leaves the database state unchanged. -/
theorem folder_resolution_correct :
    (∀ st o, resolveFrom st o = (ancestorChain o).findSome? (get_folder_by_path st)) ∧
    (resolve_parent_folder stAB ["a", "b", "c", "file.txt"] = some (2, ["a", "b"]) ∧
      resolve_parent_folder stAB ["a", "b", "c", "file.txt"] ≠ some (1, ["a"])) ∧
    (∀ fs st p k, resolve_parent_folder st p = none →
      handle_file_changed_event fs st p k = st) := by
  refine ⟨resolveFrom_eq_findSome, ⟨?_, ?_⟩, ?_⟩
  · show resolveFrom stAB (parentPath ["a", "b", "c", "file.txt"]) = some (2, ["a", "b"])
    rw [resolveFrom_eq_findSome]
    simp only [ancestorChain, parentPath, List.dropLast]
    decide
  · show resolveFrom stAB (parentPath ["a", "b", "c", "file.txt"]) ≠ some (1, ["a"])
    rw [resolveFrom_eq_findSome]
    simp only [ancestorChain, parentPath, List.dropLast]
    decide
  · intro fs st p k h
    simp only [handle_file_changed_event, handle_file_changed_ops, h, List.foldl_nil]

/-- Witness for C3: the discard conjunct applied to a path outside the only
tracked folder of stA. -/
theorem folder_resolution_correct_witness :
    resolve_parent_folder stA ["z", "f.txt"] = none ∧
    handle_file_changed_event fsNone stA ["z", "f.txt"] FsEventKind.modify = stA :=
  ⟨by rw [show resolve_parent_folder stA ["z", "f.txt"]
        = resolveFrom stA (parentPath ["z", "f.txt"]) from rfl, resolveFrom_eq_findSome]
      simp only [ancestorChain, parentPath, List.dropLast]
      decide,
   folder_resolution_correct.2.2 fsNone stA ["z", "f.txt"] FsEventKind.modify
     (by rw [show resolve_parent_folder stA ["z", "f.txt"]
          = resolveFrom stA (parentPath ["z", "f.txt"]) from rfl, resolveFrom_eq_findSome]
         simp only [ancestorChain, parentPath, List.dropLast]
         decide)⟩

/-! ## Event-loop unfolding lemmas -/

theorem start_event_loop_nil (fs : FileSystem) (st : DBState) :
    start_event_loop fs st [] = .ok (st, []) := by
  rw [start_event_loop]

theorem start_event_loop_cons (fs : FileSystem) (st : DBState) (e : QueueEvent)
    (q : List QueueEvent) (st2 : DBState) (ops : List IndexOp) (new : List QueueEvent)
    (h : processEvent fs st e = .ok (st2, ops, new)) :
    start_event_loop fs st (e :: q) =
      (start_event_loop fs st2 (q ++ new)).map (fun r => (r.1, ops ++ r.2)) := by
  rw [start_event_loop]
  split
  · rename_i pc hpc
    rw [h] at hpc
    cases hpc
  · rename_i st2x opsx newx hok
    rw [h] at hok
    simp only [Except.ok.injEq, Prod.mk.injEq] at hok
    obtain ⟨ha, hb, hc⟩ := hok
    subst ha
    subst hb
    subst hc
    cases start_event_loop fs st2 (q ++ new) with
    | error pc => rfl
    | ok pr => rfl

theorem processEvent_of_not_folder_added (fs : FileSystem) (st : DBState)
    (e : QueueEvent) (h : isFolderAddedEvent e = false) :
    ∃ st2 ops, processEvent fs st e = .ok (st2, ops, []) := by
  cases e with
  | fileChanged p k =>
    exact ⟨(handle_file_changed_ops fs st p k).foldl (applyOp fs.now) st,
      handle_file_changed_ops fs st p k, rfl⟩
  | folderAdded p => simp [isFolderAddedEvent] at h
  | shutdown => exact ⟨st, [], rfl⟩

/-! ## C2 — Shutdown is not terminal in the implemented loop -/

/-- C2 counterexample: starting from the one-folder database stA, the queue
[Shutdown, FileChanged(/a/f.txt, Remove)] still processes the Remove after
the Shutdown has been handled — the run ends with an empty file index and a
committed delete, although the index was nonempty when Shutdown was
processed.  Under the claim no handler may run for the later event, so the
index would have had to stay nonempty. -/
theorem shutdown_not_terminal_counterexample :
    start_event_loop fsNone stA
        [QueueEvent.shutdown, QueueEvent.fileChanged ["a", "f.txt"] FsEventKind.remove]
      = .ok ({ stA with fileIndex := [] }, [IndexOp.deleteOp 1 ["f.txt"]]) ∧
    stA.fileIndex ≠ [] := by
  have hres : resolve_parent_folder stA ["a", "f.txt"] = some (1, ["a"]) := by
    rw [show resolve_parent_folder stA ["a", "f.txt"]
        = resolveFrom stA (parentPath ["a", "f.txt"]) from rfl, resolveFrom_eq_findSome]
    simp only [ancestorChain, parentPath, List.dropLast]
    decide
  have hpe : processEvent fsNone stA
      (QueueEvent.fileChanged ["a", "f.txt"] FsEventKind.remove)
      = .ok ({ stA with fileIndex := [] }, [IndexOp.deleteOp 1 ["f.txt"]], []) := by
    simp only [processEvent, handle_file_changed_ops, hres]
    rfl
  constructor
  · rw [start_event_loop_cons fsNone stA QueueEvent.shutdown _ stA [] [] rfl,
      List.append_nil,
      start_event_loop_cons fsNone stA _ [] _ _ [] hpe]
    simp [start_event_loop_nil, Except.map]
  · decide

/-- C2 (amended): handling Shutdown only logs — it commits nothing, it does
not terminate the consumer, and the queue behind it is processed exactly as
if the Shutdown were absent; the loop ends only when the channel is
exhausted. -/
theorem shutdown_is_noop_and_loop_continues (fs : FileSystem) (st : DBState)
    (q : List QueueEvent) :
    processEvent fs st QueueEvent.shutdown = .ok (st, [], []) ∧
    start_event_loop fs st (QueueEvent.shutdown :: q) = start_event_loop fs st q := by
  refine ⟨rfl, ?_⟩
  rw [start_event_loop_cons fs st QueueEvent.shutdown q st [] [] rfl, List.append_nil]
  cases start_event_loop fs st q with
  | error pc => rfl
  | ok pr => simp [Except.map]

/-! ## C9 — single consumer, strict arrival order -/

/-- C9: the consumer processes one event to completion before the next: the
trace of index mutations of a run on (e :: q) is the block committed by e
followed by the trace of the remaining queue (with whatever e re-enqueued at
the back); and for queues of plain Change Events (no FolderAdded fan-out) a
run never panics and the trace of q1 ++ q2 is the trace of q1 followed by
the trace of q2 from the reached state — the blocks appear in exactly the
order the events were sent, never interleaved. -/
theorem event_loop_ordering (fs : FileSystem) :
    (∀ st e q st2 ops new, processEvent fs st e = .ok (st2, ops, new) →
      start_event_loop fs st (e :: q) =
        (start_event_loop fs st2 (q ++ new)).map (fun r => (r.1, ops ++ r.2))) ∧
    (∀ q1 q2 st, (∀ e ∈ q1, isFolderAddedEvent e = false) →
      ∃ st1 t1, start_event_loop fs st q1 = .ok (st1, t1) ∧
        start_event_loop fs st (q1 ++ q2) =
          (start_event_loop fs st1 q2).map (fun r => (r.1, t1 ++ r.2))) := by
  constructor
  · intro st e q st2 ops new h
    exact start_event_loop_cons fs st e q st2 ops new h
  · intro q1
    induction q1 with
    | nil =>
      intro q2 st _
      refine ⟨st, [], start_event_loop_nil fs st, ?_⟩
      simp only [List.nil_append]
      cases start_event_loop fs st q2 with
      | error pc => rfl
      | ok pr => simp [Except.map]
    | cons e q1 ih =>
      intro q2 st hq
      obtain ⟨st2, ops, hpe⟩ :=
        processEvent_of_not_folder_added fs st e (hq e (List.mem_cons_self e q1))
      obtain ⟨st1, t1, hrun, happ⟩ :=
        ih q2 st2 (fun e2 he2 => hq e2 (List.mem_cons_of_mem e he2))
      refine ⟨st1, ops ++ t1, ?_, ?_⟩
      · rw [start_event_loop_cons fs st e q1 st2 ops [] hpe, List.append_nil, hrun]
        rfl
      · rw [List.cons_append,
          start_event_loop_cons fs st e (q1 ++ q2) st2 ops [] hpe,
          List.append_nil, happ]
        cases start_event_loop fs st1 q2 with
        | error pc => rfl
        | ok pr => simp [Except.map, List.append_assoc]

/-- Witness for C9: the step equation applied to a Shutdown step, and the
order/append statement for the concrete FolderAdded-free queue
[Shutdown, FileChanged(/a/f.txt, Remove)] split at its head. -/
theorem event_loop_ordering_witness :
    (start_event_loop fsNone stA [QueueEvent.shutdown] =
      (start_event_loop fsNone stA ([] ++ [])).map (fun r => (r.1, [] ++ r.2))) ∧
    (∃ st1 t1, start_event_loop fsNone stA [QueueEvent.shutdown] = .ok (st1, t1) ∧
      start_event_loop fsNone stA
          ([QueueEvent.shutdown] ++
            [QueueEvent.fileChanged ["a", "f.txt"] FsEventKind.remove]) =
        (start_event_loop fsNone st1
            [QueueEvent.fileChanged ["a", "f.txt"] FsEventKind.remove]).map
          (fun r => (r.1, t1 ++ r.2))) :=
  ⟨(event_loop_ordering fsNone).1 stA QueueEvent.shutdown [] stA [] [] rfl,
   (event_loop_ordering fsNone).2 [QueueEvent.shutdown]
     [QueueEvent.fileChanged ["a", "f.txt"] FsEventKind.remove] stA
     (by decide)⟩

/-! ## File-map lemmas (HashMap semantics of the association list) -/

theorem mapLookup_insert_self (m : FileMap) (p : RPath) (v : FileEntry) :
    mapLookup (mapInsert m p v) p = some v := by
  unfold mapLookup mapInsert
  rw [List.find?_cons_of_pos _ (by simp)]
  rfl

theorem mapLookup_insert_ne (m : FileMap) (p : RPath) (v : FileEntry) (q : RPath)
    (h : q ≠ p) : mapLookup (mapInsert m p v) q = mapLookup m q := by
  unfold mapLookup mapInsert mapErase
  rw [List.find?_cons_of_neg _ (by simpa using (Ne.symm h))]
  exact assoc_lookup_filter_ne m p q h

theorem mapLookup_erase_self (m : FileMap) (p : RPath) :
    mapLookup (mapErase m p) p = none := by
  unfold mapLookup mapErase
  exact assoc_lookup_filter_self m p

theorem mapLookup_erase_ne (m : FileMap) (p q : RPath) (h : q ≠ p) :
    mapLookup (mapErase m p) q = mapLookup m q := by
  unfold mapLookup mapErase
  exact assoc_lookup_filter_ne m p q h

/-! ## C4 — re-processing an existing file resets its version to 1 -/

/-- A filesystem with one regular file /a/f.txt of content "hi" (bytes
[104, 105]), length 2, mtime 20. -/
def fsHi : FileSystem :=
  { isFile := fun _ => true
    metadata := fun _ => .ok { len := 2, modified_secs := 20 }
    openFile := fun _ => .ok { data := [104, 105], readError := none }
    filesUnder := fun _ => [["a", "f.txt"]]
    now := 9 }

/-- A SyncFolder whose file map already holds /a/f.txt at version 5. -/
def folderA : SyncFolder :=
  { id := "id1", name := "a", path := ["a"]
    files := [(["a", "f.txt"], ⟨["a", "f.txt"], 3, 2, some "oldhash", 5⟩)] }

theorem calculate_hash_fsHi :
    calculate_hash fsHi ["a", "f.txt"] = .ok (sha256Hex [104, 105]) := by
  simp only [calculate_hash, fsHi, hashLoopFeed_eq, List.nil_append]

/-- C4 counterexample: the entry for /a/f.txt sits at version 5; a Modify
event re-processed through handle_fs_change overwrites it with a fresh
version-1 entry — the version after re-processing is 1, not 6 as the claim
(increment by exactly one) requires. -/
theorem reprocess_version_counterexample :
    (mapLookup folderA.files ["a", "f.txt"]).map (fun e => e.version) = some 5 ∧
    handle_fs_change fsHi folderA ["a", "f.txt"] FsEventKind.modify =
      .ok { folderA with
            files := mapInsert folderA.files ["a", "f.txt"]
              ⟨["a", "f.txt"], 20, 2, some (sha256Hex [104, 105]), 1⟩ } ∧
    (mapLookup (mapInsert folderA.files ["a", "f.txt"]
        ⟨["a", "f.txt"], 20, 2, some (sha256Hex [104, 105]), 1⟩) ["a", "f.txt"]).map
      (fun e => e.version) = some 1 := by
  refine ⟨by decide, ?_, ?_⟩
  · simp only [handle_fs_change, calculate_hash_fsHi,
      show fsHi.isFile ["a", "f.txt"] = true from rfl,
      show fsHi.metadata ["a", "f.txt"] = Except.ok { len := 2, modified_secs := 20 } from rfl,
      if_true]
  · rw [mapLookup_insert_self]
    rfl

theorem scanFolderFiles_versions (fs : FileSystem) (ps : List RPath) (m : FileMap)
    (hm : ∀ p e, mapLookup m p = some e → e.version = 1) (m2 : FileMap)
    (h : scanFolderFiles fs ps m = .ok m2) :
    ∀ p e, mapLookup m2 p = some e → e.version = 1 := by
  induction ps generalizing m with
  | nil =>
    unfold scanFolderFiles at h
    injection h with h
    subst h
    exact hm
  | cons q qs ih =>
    unfold scanFolderFiles at h
    cases hmeta : fs.metadata q with
    | error er => rw [hmeta] at h; cases h
    | ok meta =>
      rw [hmeta] at h
      cases hch : calculate_hash fs q with
      | error er => rw [hch] at h; cases h
      | ok hh =>
        rw [hch] at h
        refine ih _ ?_ h
        intro p e hp
        by_cases hpq : p = q
        · subst hpq
          rw [mapLookup_insert_self] at hp
          injection hp with hp
          rw [← hp]
        · rw [mapLookup_insert_ne _ _ _ _ hpq] at hp
          exact hm p e hp

/-- C4 (amended): re-processing does not increment versions — it resets
them.  Every entry produced by scan_folder has version 1 and re-scanning the
scanned folder reproduces it identically (idempotent, all versions still 1);
a Modify of an existing file overwrites the entry with a fresh one whose
metadata comes from the filesystem and whose version is 1, whatever the old
version was. -/
theorem reprocess_resets_version (fs : FileSystem) :
    (∀ folder folder2, scan_folder fs folder = .ok folder2 →
      (∀ p e, mapLookup folder2.files p = some e → e.version = 1) ∧
      scan_folder fs folder2 = .ok folder2) ∧
    (∀ (folder : SyncFolder) (p : RPath) meta h, fs.isFile p = true →
      fs.metadata p = .ok meta → calculate_hash fs p = .ok h →
      handle_fs_change fs folder p FsEventKind.modify =
        .ok { folder with
              files := mapInsert folder.files p
                { path := p, last_modified := meta.modified_secs, size := meta.len,
                  hash := some h, version := 1 } }) := by
  constructor
  · intro folder folder2 h
    unfold scan_folder at h
    cases hscan : scanFolderFiles fs (fs.filesUnder folder.path) [] with
    | error er => rw [hscan] at h; cases h
    | ok m =>
      rw [hscan] at h
      injection h with h
      subst h
      constructor
      · exact scanFolderFiles_versions fs _ []
          (by intro p e hp; simp [mapLookup] at hp) m hscan
      · unfold scan_folder
        rw [show ({ folder with files := m } : SyncFolder).path = folder.path from rfl,
          hscan]
  · intro folder p meta h hfile hmeta hch
    unfold handle_fs_change
    rw [hfile, if_pos rfl, hmeta, hch]

/-- Witness for C4: re-processing /a/f.txt (stored at version 5) through a
Modify overwrites it with a version-1 entry, and scanning a folder whose
tree is empty is reproducible with all (vacuously no) versions at 1. -/
theorem reprocess_resets_version_witness :
    handle_fs_change fsHi folderA ["a", "f.txt"] FsEventKind.modify =
      .ok { folderA with
            files := mapInsert folderA.files ["a", "f.txt"]
              { path := ["a", "f.txt"], last_modified := 20, size := 2,
                hash := some (sha256Hex [104, 105]), version := 1 } } ∧
    ((∀ p e, mapLookup ({ folderA with files := [] } : SyncFolder).files p = some e →
        e.version = 1) ∧
      scan_folder fsNone { folderA with files := [] } =
        .ok { folderA with files := [] }) :=
  ⟨(reprocess_resets_version fsHi).2 folderA ["a", "f.txt"]
      { len := 2, modified_secs := 20 } (sha256Hex [104, 105]) rfl rfl calculate_hash_fsHi,
   (reprocess_resets_version fsNone).1 folderA { folderA with files := [] } rfl⟩

/-! ## C7 — Rename moves the entry, preserving its fields -/

/-- C7: when the file map holds an entry at old_path, a Rename event removes
it and inserts at new_path the same entry with only its path field updated
(size, hash, version and mtime preserved); entries at other keys are
untouched; when old_path is absent the map is returned unchanged. -/
theorem rename_moves_entry (fs : FileSystem) (folder : SyncFolder)
    (event_path old_path new_path : RPath) :
    (∀ e, mapLookup folder.files old_path = some e →
      handle_fs_change fs folder event_path (FsEventKind.rename old_path new_path) =
        .ok { folder with
              files := mapInsert (mapErase folder.files old_path) new_path
                { e with path := new_path } } ∧
      mapLookup (mapInsert (mapErase folder.files old_path) new_path
          { e with path := new_path }) new_path = some { e with path := new_path } ∧
      ({ e with path := new_path }.path = new_path ∧
        { e with path := new_path }.size = e.size ∧
        { e with path := new_path }.hash = e.hash ∧
        { e with path := new_path }.version = e.version ∧
        { e with path := new_path }.last_modified = e.last_modified) ∧
      (old_path ≠ new_path →
        mapLookup (mapInsert (mapErase folder.files old_path) new_path
          { e with path := new_path }) old_path = none) ∧
      (∀ q, q ≠ old_path → q ≠ new_path →
        mapLookup (mapInsert (mapErase folder.files old_path) new_path
          { e with path := new_path }) q = mapLookup folder.files q)) ∧
    (mapLookup folder.files old_path = none →
      handle_fs_change fs folder event_path (FsEventKind.rename old_path new_path) =
        .ok folder) := by
  constructor
  · intro e he
    refine ⟨?_, mapLookup_insert_self _ _ _, ⟨rfl, rfl, rfl, rfl, rfl⟩, ?_, ?_⟩
    · simp only [handle_fs_change, he]
    · intro hne
      rw [mapLookup_insert_ne _ _ _ _ hne, mapLookup_erase_self]
    · intro q hqo hqn
      rw [mapLookup_insert_ne _ _ _ _ hqn, mapLookup_erase_ne _ _ _ hqo]
  · intro he
    simp only [handle_fs_change, he]

/-- Witness for C7: renaming the stored /a/f.txt entry (version 5) to
/a/g.txt keeps size 2, hash "oldhash" and version 5 under the new key,
empties the old key, and renaming a missing path is the identity. -/
theorem rename_moves_entry_witness :
    (handle_fs_change fsNone folderA ["a", "f.txt"]
        (FsEventKind.rename ["a", "f.txt"] ["a", "g.txt"]) =
      .ok { folderA with
            files := mapInsert (mapErase folderA.files ["a", "f.txt"]) ["a", "g.txt"]
              ⟨["a", "g.txt"], 3, 2, some "oldhash", 5⟩ } ∧
      mapLookup (mapInsert (mapErase folderA.files ["a", "f.txt"]) ["a", "g.txt"]
        ⟨["a", "g.txt"], 3, 2, some "oldhash", 5⟩) ["a", "g.txt"] =
        some ⟨["a", "g.txt"], 3, 2, some "oldhash", 5⟩) ∧
    handle_fs_change fsNone folderA ["a", "f.txt"]
        (FsEventKind.rename ["a", "missing.txt"] ["a", "g.txt"]) = .ok folderA := by
  have h := (rename_moves_entry fsNone folderA ["a", "f.txt"] ["a", "f.txt"]
      ["a", "g.txt"]).1 ⟨["a", "f.txt"], 3, 2, some "oldhash", 5⟩ (by decide)
  exact ⟨⟨h.1, h.2.1⟩,
    (rename_moves_entry fsNone folderA ["a", "f.txt"] ["a", "missing.txt"]
      ["a", "g.txt"]).2 (by decide)⟩

/-! ## C8 — watcher normalisation forwards one event per path of the raw
notification, not one per notification -/

theorem filterMap_some_comp {α β : Type} (f : α → β) (l : List α) :
    l.filterMap (fun a => some (f a)) = l.map f := by
  induction l with
  | nil => rfl
  | cons a t ih => simp [List.filterMap_cons, ih]

/-- C8 counterexample: a single raw notification of kind Modify carrying the
two paths /a and /b (as a rename reported by the OS does) is forwarded as
two FileChanged events — more than the "zero or one per raw notification"
the claim allows. -/
theorem watcher_forward_counterexample :
    watcherForward { paths := [["a"], ["b"]], kind := NotifyEventKind.modify } =
      [QueueEvent.fileChanged ["a"] FsEventKind.modify,
       QueueEvent.fileChanged ["b"] FsEventKind.modify] ∧
    ¬ (watcherForward { paths := [["a"], ["b"]], kind := NotifyEventKind.modify }).length
        ≤ 1 := by
  decide

/-- C8 (amended): the watcher forwards at most one normalized FileChanged
per (notification, path) pair — Create/Modify/Remove kinds map each path of
the notification to one FileChanged of the corresponding FsEventKind, any
other kind is silently dropped (nothing forwarded, no failure), and the
number of forwarded events never exceeds the number of paths. -/
theorem watcher_forward_semantics (e : NotifyEvent) :
    (e.kind = NotifyEventKind.create →
      watcherForward e = e.paths.map (fun p => QueueEvent.fileChanged p FsEventKind.create)) ∧
    (e.kind = NotifyEventKind.modify →
      watcherForward e = e.paths.map (fun p => QueueEvent.fileChanged p FsEventKind.modify)) ∧
    (e.kind = NotifyEventKind.remove →
      watcherForward e = e.paths.map (fun p => QueueEvent.fileChanged p FsEventKind.remove)) ∧
    (e.kind = NotifyEventKind.any ∨ e.kind = NotifyEventKind.access ∨
        e.kind = NotifyEventKind.other →
      watcherForward e = []) ∧
    (watcherForward e).length ≤ e.paths.length ∧
    (∀ p, ((map_notify_event p e.kind).map (fun q => [q])).getD [] =
        (watcherForward { paths := [p], kind := e.kind })) := by
  refine ⟨?_, ?_, ?_, ?_, ?_, ?_⟩
  · intro h
    simp only [watcherForward, map_notify_event, h, filterMap_some_comp]
  · intro h
    simp only [watcherForward, map_notify_event, h, filterMap_some_comp]
  · intro h
    simp only [watcherForward, map_notify_event, h, filterMap_some_comp]
  · rintro (h | h | h) <;> simp [watcherForward, map_notify_event, h]
  · exact List.length_filterMap_le _ _
  · intro p
    cases e with
    | mk paths kind =>
      cases kind <;> rfl

/-- Witness for C8: a one-path Create notification forwards exactly one
Create FileChanged, and a one-path Access notification forwards nothing. -/
theorem watcher_forward_semantics_witness :
    watcherForward { paths := [["a", "x.txt"]], kind := NotifyEventKind.create } =
      [QueueEvent.fileChanged ["a", "x.txt"] FsEventKind.create] ∧
    watcherForward { paths := [["a", "x.txt"]], kind := NotifyEventKind.access } = [] :=
  ⟨by
    have h := (watcher_forward_semantics
      { paths := [["a", "x.txt"]], kind := NotifyEventKind.create }).1 rfl
    simpa using h,
   (watcher_forward_semantics
      { paths := [["a", "x.txt"]], kind := NotifyEventKind.access }).2.2.2.1
     (Or.inr (Or.inl rfl))⟩

/-! ## C10 — the unwrap chain of handle_folder_added_event -/

/-- C10 counterexample: the path with components [invalid, valid] has a
valid-UTF-8 final component, yet the handler panics (at the whole-path
to_str unwrap) instead of proceeding to register the folder as the claim
asserts for every path with a valid UTF-8 final component. -/
theorem folder_added_unwrap_counterexample :
    ([((false : Bool), "bad"), ((true : Bool), "b")].getLast?
        = some ((true : Bool), "b") ∧
      osCompToStr ((true : Bool), "b") = some "b") ∧
    handle_folder_added_os [] [((false : Bool), "bad"), ((true : Bool), "b")] =
      .error "called Option unwrap on a None value" ∧
    ∀ db2, handle_folder_added_os [] [((false : Bool), "bad"), ((true : Bool), "b")] ≠
      .ok db2 := by
  refine ⟨⟨rfl, rfl⟩, rfl, ?_⟩
  intro db2 h
  rw [show handle_folder_added_os [] [((false : Bool), "bad"), ((true : Bool), "b")]
      = .error "called Option unwrap on a None value" from rfl] at h
  cases h

/-- C10 (amended): the handler panics, before touching the index, on the
unwrap chain whenever the path has no final component, or its final
component is not valid UTF-8, or any component of the whole path is not
valid UTF-8 (the third unwrap, path.to_str(), which the original claim
missed); only a path with a final component whose every component is valid
UTF-8 proceeds to register the folder. -/
theorem folder_added_unwrap_semantics (db : List (String × String)) (p : OsPath) :
    (p.getLast? = none →
      handle_folder_added_os db p = .error "called Option unwrap on a None value") ∧
    (∀ c, p.getLast? = some c → c.1 = false →
      handle_folder_added_os db p = .error "called Option unwrap on a None value") ∧
    (p.all (fun c => c.1) = false →
      handle_folder_added_os db p = .error "called Option unwrap on a None value") ∧
    (∀ c, p.getLast? = some c → p.all (fun c => c.1) = true →
      handle_folder_added_os db p =
        .ok (if db.any (fun f => decide (f.1 = c.2) || decide (f.2 = osPathRender p))
             then db else db ++ [(c.2, osPathRender p)])) := by
  refine ⟨?_, ?_, ?_, ?_⟩
  · intro h
    simp only [handle_folder_added_os, h]
  · intro c hlast hc
    simp only [handle_folder_added_os, hlast, osCompToStr, hc, Bool.false_eq_true,
      if_false]
  · intro hall
    cases hlast : p.getLast? with
    | none =>
      rw [List.getLast?_eq_none_iff] at hlast
      subst hlast
      cases hall
    | some c =>
      cases hc : c.1 with
      | false =>
        simp only [handle_folder_added_os, hlast, osCompToStr, hc,
          Bool.false_eq_true, if_false]
      | true =>
        simp only [handle_folder_added_os, hlast, osCompToStr, hc, if_true,
          osPathToStr, hall, Bool.false_eq_true, if_false]
  · intro c hlast hall
    have hc : c.1 = true :=
      List.all_eq_true.mp hall c (List.mem_of_mem_getLast? hlast)
    simp only [handle_folder_added_os, hlast, osCompToStr, hc, if_true,
      osPathToStr, hall]
    split <;> rfl

/-- Witness for C10: the root path panics at file_name, an invalid final
component panics at its to_str, a valid-final/invalid-middle path panics at
the whole-path to_str, and a fully valid path registers (name = final
component, local_path = rendered path). -/
theorem folder_added_unwrap_semantics_witness :
    handle_folder_added_os [] [] = .error "called Option unwrap on a None value" ∧
    handle_folder_added_os [] [((false : Bool), "x")] =
      .error "called Option unwrap on a None value" ∧
    handle_folder_added_os [] [((false : Bool), "bad"), ((true : Bool), "b")] =
      .error "called Option unwrap on a None value" ∧
    handle_folder_added_os [] [((true : Bool), "a"), ((true : Bool), "b")] =
      .ok [("b", "a/b")] :=
  ⟨(folder_added_unwrap_semantics [] []).1 rfl,
   (folder_added_unwrap_semantics [] [((false : Bool), "x")]).2.1
     ((false : Bool), "x") rfl rfl,
   (folder_added_unwrap_semantics []
     [((false : Bool), "bad"), ((true : Bool), "b")]).2.2.1 rfl,
   by
    have h := (folder_added_unwrap_semantics []
      [((true : Bool), "a"), ((true : Bool), "b")]).2.2.2
      ((true : Bool), "b") rfl rfl
    simpa using h⟩

end SyncRs
